import Mathlib

/-!
Shallow embedding of `src/index.js` (`execWhenSourceBufferReady` and its
queue-draining `updateend` handler `onSourceBufferReadyAndQueueNotEmpty`).

The source tracks many `SourceBuffer`s in one `WeakMap`
(`queueMap : WeakMap<SourceBuffer, Array<() => void>>`), but entries of
distinct source buffers never interact: every statement in the file touches
only the entry, the `updating` flag and the `updateend` listeners of the one
`sourceBuffer` passed in.  We therefore model the slice of the world owned by
a single tracked `SourceBuffer`:

* `updating`  — the resource's busy flag (`sourceBuffer.updating`);
* `queue`     — the registry entry for this buffer: `none` when `queueMap`
  has no entry, `some l` when the entry is the array `l` (possibly empty:
  the source never deletes the entry, it only shifts the array);
* `listeners` — the buffer's currently subscribed `updateend` handlers, in
  registration order; each submit that subscribes creates a fresh closure, so
  a handler carries a unique identity `hid` plus the `onWarning` sink it
  captured;
* `warnings`  — the messages actually delivered through a (non-null) sink,
  in emission order;
* `executed`  — the ids of the callbacks that have run, in execution order;
* `crashed`   — set when the model performs `queue.shift()` on an empty
  array and then invokes the `undefined` result (a TypeError in JS); the
  safety claim is that this is unreachable.

A callback is modelled as an id plus its effect on the busy flag: callbacks
are zero-argument and side-effecting, and the only state of the resource the
controller ever reads back is `sourceBuffer.updating`, so the effect is a
function from the old flag value to the new one.  (Per the spec's
concurrency model, operations run to completion synchronously and do not
re-enter the controller.)
-/

/-- A queued operation: the callback's identity and its effect on the
`updating` flag when invoked. -/
structure Op where
  id : Nat
  effect : Bool → Bool

/-- The two warning conditions of the source, in the source's order of
appearance: the drain guard's "something else made it busy" warning, and the
post-callback "didn't make `sourceBuffer.updating === true`" warning. -/
inductive WarnKind where
  | externalBusy
  | didNotReBusy
deriving DecidableEq, Repr

/-- A subscribed `updateend` handler: each call of
`execWhenSourceBufferReady` that subscribes creates a fresh closure, so the
handler has a unique identity `hid`, and it captures the (already
defaulted) `onWarning` sink of that call.  Sinks are identified by `Nat`;
`none` models a `null` sink (so that `onWarning?.(...)` does nothing). -/
structure Handler where
  hid : Nat
  onWarning : Option Nat
deriving DecidableEq, Repr

/-- The state of one tracked `SourceBuffer` together with its slice of the
module state (`queueMap` entry, subscribed listeners) and the observation
logs. -/
structure SBState where
  updating : Bool
  queue : Option (List Op)
  listeners : List Handler
  nextHid : Nat
  warnings : List WarnKind
  executed : List Nat
  crashed : Bool

/-- The identity of the default sink `console.warn`. -/
def consoleWarn : Nat := 0

/-- What a JS caller can pass for the `onWarning` parameter: nothing,
explicit `undefined`, explicit `null`, or a function (identified by a
`Nat` tag). -/
inductive SinkArg where
  | omitted
  | undef
  | jsNull
  | fn (f : Nat)

/-- JS default-parameter semantics for `onWarning = console.warn`:
the default is substituted when the argument is omitted or is explicitly
`undefined`; `null` and functions are kept as passed. -/
def resolveOnWarning : SinkArg → Option Nat
  | .omitted => some consoleWarn
  | .undef => some consoleWarn
  | .jsNull => none
  | .fn f => some f

/-- `onWarning?.(msg)`: the warning reaches the sink exactly when the sink
is non-null. -/
def emitWarning (sink : Option Nat) (k : WarnKind) : List WarnKind :=
  match sink with
  | some _ => [k]
  | none => []

/-- The drain loop of `onSourceBufferReadyAndQueueNotEmpty`
(src/index.js lines 83-109), as recursion on the queue contents:

```js
do {
  const callback = queue.shift();
  callback();
  if (!sourceBuffer.updating) { onWarning?.("...didn't make...busy..."); }
  if (queue.length === 0) {
    sourceBuffer.removeEventListener("updateend", onSourceBufferReadyAndQueueNotEmpty);
    return;
  }
} while (!sourceBuffer.updating);
```

The `[]` case is `queue.shift()` returning `undefined` and `callback()`
throwing a TypeError; it is modelled by the `crashed` flag (the safety
claim is that it is never reached).  The recursion argument is the queue
contents, kept in lock-step with the registry field `queue` (the closure's
captured array is the registry's array). -/
def drainLoop (h : Handler) : List Op → SBState → SBState
  | [], s => { s with crashed := true }
  | cb :: rest, s =>
    let upd := cb.effect s.updating
    let s1 : SBState :=
      { s with
        updating := upd
        queue := some rest
        executed := s.executed ++ [cb.id]
        warnings := s.warnings ++
          (if upd = false then emitWarning h.onWarning .didNotReBusy else []) }
    if rest.isEmpty then
      { s1 with listeners := s1.listeners.erase h }
    else if upd = false then
      drainLoop h rest s1
    else
      s1

/-- The `updateend` handler closure created by one subscribing call of
`execWhenSourceBufferReady` (src/index.js lines 68-114).  The guard: if
`sourceBuffer.updating` is `true` when the notification arrives, warn and
return without touching the queue, staying subscribed; otherwise run the
drain loop on the captured queue array (which is the registry's array:
`queueMap` entries are set once and never replaced). -/
def onSourceBufferReadyAndQueueNotEmpty (h : Handler) (s : SBState) : SBState :=
  if s.updating then
    { s with warnings := s.warnings ++ emitWarning h.onWarning .externalBusy }
  else
    drainLoop h (s.queue.getD []) s

/-- `execWhenSourceBufferReady(sourceBuffer, callback, onWarning = console.warn)`
(src/index.js lines 32-133):

1. `if (queue && queue.length > 0) { queue.push(callback); return; }`
2. `if (!sourceBuffer.updating) { callback(); return; }`
3. otherwise put `callback` into the registry's array (creating the entry
   when absent: both the `queue = [callback]; queueMap.set(...)` and the
   `queue.push(callback)` branches leave the entry equal to the old
   contents with `callback` appended) and
   `addEventListener("updateend", onSourceBufferReadyAndQueueNotEmpty)`,
   a fresh closure capturing the defaulted `onWarning`. -/
def execWhenSourceBufferReady (cb : Op) (onWarningArg : SinkArg) (s : SBState) :
    SBState :=
  let onWarning := resolveOnWarning onWarningArg
  if 0 < (s.queue.getD []).length then
    { s with queue := some (s.queue.getD [] ++ [cb]) }
  else if s.updating = false then
    { s with
      updating := cb.effect s.updating
      executed := s.executed ++ [cb.id] }
  else
    { s with
      queue := some (s.queue.getD [] ++ [cb])
      listeners := s.listeners ++ [⟨s.nextHid, onWarning⟩]
      nextHid := s.nextHid + 1 }

/-- DOM event dispatch for one `updateend` firing: the handlers subscribed
at dispatch time are invoked in registration order, except that a handler
removed (by an earlier handler of the same firing) before being invoked is
skipped. -/
def fireUpdateEnd : List Handler → SBState → SBState
  | [], s => s
  | h :: hs, s =>
    let s' := if h ∈ s.listeners then onSourceBufferReadyAndQueueNotEmpty h s else s
    fireUpdateEnd hs s'

/-- Delivery of one `updateend` event to the tracked buffer. -/
def notifyUpdateEnd (s : SBState) : SBState :=
  fireUpdateEnd s.listeners s

/-- The externally visible stimuli of the controller: a call of
`execWhenSourceBufferReady`, the delivery of an `updateend` event, and an
external change of the `updating` flag (the flag changes as a side effect
of host activity, asynchronously from the notification; this event also
lets the model realise the busy-to-free transition that precedes an
`updateend`, as well as an external actor violating exclusivity). -/
inductive Event where
  | submit (cb : Op) (onWarningArg : SinkArg)
  | updateEnd
  | extSetUpdating (b : Bool)

/-- One step of the controller's environment. -/
def step (e : Event) (s : SBState) : SBState :=
  match e with
  | .submit cb arg => execWhenSourceBufferReady cb arg s
  | .updateEnd => notifyUpdateEnd s
  | .extSetUpdating b => { s with updating := b }

/-- The initial state: resource free, no registry entry, no listeners, no
observations. -/
def init : SBState :=
  { updating := false
    queue := none
    listeners := []
    nextHid := 0
    warnings := []
    executed := []
    crashed := false }

/-- Run a sequence of events from a given state. -/
def runFrom (s : SBState) : List Event → SBState
  | [] => s
  | e :: evs => runFrom (step e s) evs

/-- Run a sequence of events from the initial state: the reachable states
of the controller are exactly the values of `run`. -/
def run (evs : List Event) : SBState :=
  runFrom init evs

/-- Length of the registry's queue for the buffer (`0` when the entry is
absent). -/
def queueLen (s : SBState) : Nat :=
  (s.queue.getD []).length

/-- The ids of the operations currently pending in the buffer's queue. -/
def pendingIds (s : SBState) : List Nat :=
  (s.queue.getD []).map Op.id

/-- The ids already executed followed by the ids still pending: the claim
about ordering is that this always equals the submission order. -/
def obsIds (s : SBState) : List Nat :=
  s.executed ++ pendingIds s

/-- The ids of the callbacks passed to `execWhenSourceBufferReady`, in
call order. -/
def submittedIds : List Event → List Nat
  | [] => []
  | .submit cb _ :: evs => cb.id :: submittedIds evs
  | .updateEnd :: evs => submittedIds evs
  | .extSetUpdating _ :: evs => submittedIds evs

/-! ## Preservation of the submission order -/

theorem drainLoop_obsIds (h : Handler) :
    ∀ (l : List Op) (s : SBState), s.queue.getD [] = l →
      obsIds (drainLoop h l s) = obsIds s := by
  intro l
  induction l with
  | nil =>
    intro s _
    simp [drainLoop, obsIds, pendingIds]
  | cons cb rest ih =>
    intro s hq
    have hqs : s.queue = some (cb :: rest) := by
      cases hsq : s.queue with
      | none => rw [hsq] at hq; simp at hq
      | some l' => rw [hsq] at hq; simp at hq; rw [hq]
    simp only [drainLoop]
    cases hre : rest.isEmpty with
    | true =>
      simp only [hre, if_true]
      simp [obsIds, pendingIds, hqs]
    | false =>
      simp only [hre, Bool.false_eq_true, if_false]
      cases hupd : cb.effect s.updating with
      | false =>
        simp only [hupd, if_true]
        rw [ih _ (by simp)]
        simp [obsIds, pendingIds, hqs, hupd]
      | true =>
        simp [obsIds, pendingIds, hqs, hupd]

theorem handler_obsIds (h : Handler) (s : SBState) :
    obsIds (onSourceBufferReadyAndQueueNotEmpty h s) = obsIds s := by
  unfold onSourceBufferReadyAndQueueNotEmpty
  cases hb : s.updating with
  | true => simp [hb, obsIds, pendingIds]
  | false =>
    simp only [hb, Bool.false_eq_true, if_false]
    exact drainLoop_obsIds h _ s rfl

theorem fireUpdateEnd_obsIds :
    ∀ (hs : List Handler) (s : SBState), obsIds (fireUpdateEnd hs s) = obsIds s := by
  intro hs
  induction hs with
  | nil => intro s; rfl
  | cons h t ih =>
    intro s
    simp only [fireUpdateEnd]
    by_cases hm : h ∈ s.listeners
    · simp only [hm, if_true]
      rw [ih, handler_obsIds]
    · simp only [hm, if_false]
      exact ih _

theorem step_obsIds (e : Event) (s : SBState) :
    obsIds (step e s) = obsIds s ++ submittedIds [e] := by
  cases e with
  | submit cb arg =>
    simp only [step, execWhenSourceBufferReady, submittedIds]
    by_cases h1 : 0 < (s.queue.getD []).length
    · simp [h1, obsIds, pendingIds]
    · have hnil : s.queue.getD [] = [] := by
        have := Nat.eq_zero_of_not_pos h1
        exact List.length_eq_zero.mp this
      by_cases h2 : s.updating = false
      · simp [h1, h2, obsIds, pendingIds, hnil]
      · simp [h1, h2, obsIds, pendingIds, hnil]
  | updateEnd =>
    simp only [step, notifyUpdateEnd, submittedIds]
    rw [fireUpdateEnd_obsIds]
    simp
  | extSetUpdating b =>
    simp [step, obsIds, pendingIds, submittedIds]

theorem submittedIds_cons (e : Event) (evs : List Event) :
    submittedIds (e :: evs) = submittedIds [e] ++ submittedIds evs := by
  cases e <;> simp [submittedIds]

theorem runFrom_obsIds :
    ∀ (evs : List Event) (s : SBState),
      obsIds (runFrom s evs) = obsIds s ++ submittedIds evs := by
  intro evs
  induction evs with
  | nil => intro s; simp [runFrom, submittedIds]
  | cons e t ih =>
    intro s
    rw [runFrom, ih, step_obsIds, List.append_assoc, ← submittedIds_cons]

/-- Claim C1: operations execute in exactly the order they were submitted:
after any interleaving of submissions, `updateend` deliveries and external
flag changes, the ids already executed followed by the ids still pending in
the queue are exactly the submitted ids in submission order — so no
permutation other than submission order is possible. -/
theorem fifo_execution_order (evs : List Event) :
    (run evs).executed ++ pendingIds (run evs) = submittedIds evs := by
  have h := runFrom_obsIds evs init
  rw [run]
  rw [obsIds] at h
  rw [h]
  simp [obsIds, init, pendingIds]

/-! ## The subscription lifecycle invariant -/

/-- The inductive invariant of the controller: the model never performed an
empty `shift`, and the number of subscribed `updateend` handlers is `1`
exactly while the registry's queue is non-empty, `0` while it is empty or
absent. -/
def QInv (s : SBState) : Prop :=
  s.crashed = false ∧
  s.listeners.length = (if (s.queue.getD []).isEmpty then 0 else 1)

theorem drainLoop_cons_eq (h : Handler) (cb : Op) (rest : List Op) (s : SBState) :
    drainLoop h (cb :: rest) s =
      (let upd := cb.effect s.updating
       let s1 : SBState :=
         { s with
           updating := upd
           queue := some rest
           executed := s.executed ++ [cb.id]
           warnings := s.warnings ++
             (if upd = false then emitWarning h.onWarning .didNotReBusy else []) }
       if rest.isEmpty then
         { s1 with listeners := s1.listeners.erase h }
       else if upd = false then
         drainLoop h rest s1
       else
         s1) := rfl

theorem drainLoop_QInv (h : Handler) :
    ∀ (l : List Op) (cb : Op) (s : SBState),
      s.crashed = false → s.listeners = [h] → s.queue = some (cb :: l) →
      QInv (drainLoop h (cb :: l) s) := by
  intro l
  induction l with
  | nil =>
    intro cb s hc hl _
    simp [drainLoop, QInv, hc, hl]
  | cons c2 t ih =>
    intro cb s hc hl hq
    rw [drainLoop_cons_eq]
    simp only [List.isEmpty_cons, Bool.false_eq_true, if_false]
    cases hupd : cb.effect s.updating with
    | false =>
      simp only [hupd, eq_self_iff_true, if_true]
      apply ih c2
      · exact hc
      · exact hl
      · rfl
    | true =>
      simp [QInv, hc, hl, hupd]

theorem handler_QInv (h : Handler) (s : SBState)
    (hinv : QInv s) (hl : s.listeners = [h]) :
    QInv (onSourceBufferReadyAndQueueNotEmpty h s) := by
  obtain ⟨hc, hlen⟩ := hinv
  unfold onSourceBufferReadyAndQueueNotEmpty
  cases hb : s.updating with
  | true =>
    refine ⟨hc, ?_⟩
    simpa using hlen
  | false =>
    simp only [hb, Bool.false_eq_true, if_false]
    rw [hl] at hlen
    have hne : (s.queue.getD []).isEmpty = false := by
      by_contra hcontra
      have : (s.queue.getD []).isEmpty = true := by
        cases hx : (s.queue.getD []).isEmpty
        · exact absurd hx hcontra
        · rfl
      rw [this] at hlen
      simp at hlen
    obtain ⟨cb, l, hgd⟩ : ∃ cb l, s.queue.getD [] = cb :: l := by
      cases hx : s.queue.getD [] with
      | nil => rw [hx] at hne; simp at hne
      | cons cb l => exact ⟨cb, l, rfl⟩
    have hq : s.queue = some (cb :: l) := by
      cases hsq : s.queue with
      | none => rw [hsq] at hgd; simp at hgd
      | some q => rw [hsq] at hgd; simp at hgd; rw [hgd]
    rw [hgd]
    exact drainLoop_QInv h l cb s hc hl hq

theorem notify_QInv (s : SBState) (hinv : QInv s) : QInv (notifyUpdateEnd s) := by
  unfold notifyUpdateEnd
  cases hl : s.listeners with
  | nil =>
    simpa [fireUpdateEnd] using hinv
  | cons h t =>
    have ht : t = [] := by
      have h2 := hinv.2
      rw [hl] at h2
      cases hx : (s.queue.getD []).isEmpty
      · rw [hx] at h2
        simp at h2
        exact h2
      · rw [hx] at h2
        simp at h2
    subst ht
    simp only [fireUpdateEnd]
    have hm : h ∈ s.listeners := by rw [hl]; exact List.mem_cons_self h []
    simp only [hm, if_true]
    exact handler_QInv h s hinv hl

theorem step_QInv (e : Event) (s : SBState) (hinv : QInv s) : QInv (step e s) := by
  obtain ⟨hc, hlen⟩ := hinv
  cases e with
  | submit cb arg =>
    simp only [step, execWhenSourceBufferReady]
    by_cases h1 : 0 < (s.queue.getD []).length
    · have hne : (s.queue.getD []).isEmpty = false := by
        cases hx : s.queue.getD [] with
        | nil => rw [hx] at h1; simp at h1
        | cons a l => simp
      rw [hne] at hlen
      simp only [h1, if_true]
      exact ⟨hc, by simpa using hlen⟩
    · have hnil : s.queue.getD [] = [] :=
        List.length_eq_zero.mp (Nat.eq_zero_of_not_pos h1)
      have hemp : (s.queue.getD []).isEmpty = true := by rw [hnil]; rfl
      rw [hemp] at hlen
      have hlnil : s.listeners = [] := List.length_eq_zero.mp (by simpa using hlen)
      by_cases h2 : s.updating = false
      · simp only [h1, if_false, h2, if_true]
        exact ⟨hc, by rw [hemp]; simpa using hlen⟩
      · simp only [h1, if_false, h2]
        refine ⟨hc, ?_⟩
        simp [hlnil, hnil]
  | updateEnd => exact notify_QInv s ⟨hc, hlen⟩
  | extSetUpdating b => exact ⟨hc, hlen⟩

theorem runFrom_QInv :
    ∀ (evs : List Event) (s : SBState), QInv s → QInv (runFrom s evs) := by
  intro evs
  induction evs with
  | nil => intro s hinv; exact hinv
  | cons e t ih =>
    intro s hinv
    exact ih _ (step_QInv e s hinv)

theorem run_QInv (evs : List Event) : QInv (run evs) :=
  runFrom_QInv evs init ⟨rfl, by simp [init]⟩

/-- Claim C4: in every reachable state of the controller, an `updateend`
drain handler is subscribed if and only if the registry's queue for the
resource is non-empty — the subscription count is exactly `1` while the
queue is non-empty and exactly `0` while it is empty or absent, so each
empty-to-non-empty transition subscribes exactly once and each
non-empty-to-empty transition unsubscribes exactly once. -/
theorem subscription_active_iff_queue_nonempty (evs : List Event) :
    (run evs).listeners.length = (if queueLen (run evs) = 0 then 0 else 1) := by
  have h := (run_QInv evs).2
  rw [h]
  cases hx : ((run evs).queue.getD []).isEmpty with
  | true =>
    have : queueLen (run evs) = 0 := by
      rw [queueLen, List.isEmpty_iff.mp hx]
      rfl
    simp [this]
  | false =>
    have : queueLen (run evs) ≠ 0 := by
      rw [queueLen]
      cases hy : (run evs).queue.getD [] with
      | nil => rw [hy] at hx; simp at hx
      | cons a l => simp
    simp [this]

/-- Claim C9: in every reachable state, the drain handler has never executed
`queue.shift()` on an empty queue — every front-removal yields an operation,
so invoking the shifted value never faults. -/
theorem shift_always_yields_operation (evs : List Event) :
    (run evs).crashed = false :=
  (run_QInv evs).1

/-! ## Opportunistic draining -/

theorem drainLoop_allFree (h : Handler) :
    ∀ (l : List Op) (cb : Op) (s : SBState),
      s.updating = false →
      (∀ x ∈ cb :: l, x.effect false = false) →
      (drainLoop h (cb :: l) s).executed = s.executed ++ (cb :: l).map Op.id ∧
      (drainLoop h (cb :: l) s).queue = some [] ∧
      (drainLoop h (cb :: l) s).listeners = s.listeners.erase h := by
  intro l
  induction l with
  | nil =>
    intro cb s hb hfree
    have hcb : cb.effect s.updating = false := by
      rw [hb]; exact hfree cb (List.mem_cons_self cb [])
    rw [drainLoop_cons_eq]
    simp [hcb]
  | cons c2 t ih =>
    intro cb s hb hfree
    have hcb : cb.effect s.updating = false := by
      rw [hb]; exact hfree cb (List.mem_cons_self cb _)
    rw [drainLoop_cons_eq]
    simp only [List.isEmpty_cons, Bool.false_eq_true, if_false, hcb,
      eq_self_iff_true, if_true]
    have hrest := ih c2
      { s with
        updating := false
        queue := some (c2 :: t)
        executed := s.executed ++ [cb.id]
        warnings := s.warnings ++ emitWarning h.onWarning WarnKind.didNotReBusy }
      rfl (fun x hx => hfree x (List.mem_cons_of_mem cb hx))
    refine ⟨?_, hrest.2.1, hrest.2.2⟩
    rw [hrest.1]
    simp

/-- Claim C2: when the drain handler passes the busy guard, it keeps
executing queued operations in the same drain pass as long as the resource
stays free: a non-empty queue whose operations all leave `updating` false is
drained to empty by a single `updateend` delivery, with every queued
operation executed in order, without waiting for another notification. -/
theorem whole_queue_drains_in_one_notification
    (s : SBState) (h : Handler) (l : List Op)
    (hl : s.listeners = [h]) (hb : s.updating = false)
    (hq : s.queue = some l) (hne : l ≠ [])
    (hfree : ∀ x ∈ l, x.effect false = false) :
    (notifyUpdateEnd s).executed = s.executed ++ l.map Op.id ∧
    queueLen (notifyUpdateEnd s) = 0 := by
  obtain ⟨cb, t, rfl⟩ := List.exists_cons_of_ne_nil hne
  unfold notifyUpdateEnd
  rw [hl]
  simp only [fireUpdateEnd]
  have hm : h ∈ s.listeners := by rw [hl]; exact List.mem_cons_self h []
  simp only [hm, if_true]
  unfold onSourceBufferReadyAndQueueNotEmpty
  simp only [hb, Bool.false_eq_true, if_false]
  have hgd : s.queue.getD [] = cb :: t := by rw [hq]; rfl
  rw [hgd]
  have hall := drainLoop_allFree h t cb s hb hfree
  exact ⟨hall.1, by rw [queueLen, hall.2.1]; rfl⟩

def allFreeOp (i : Nat) : Op := ⟨i, fun _ => false⟩

def allFreeHandler : Handler := ⟨0, some consoleWarn⟩

def allFreeState : SBState :=
  { updating := false
    queue := some [allFreeOp 1, allFreeOp 2, allFreeOp 3]
    listeners := [allFreeHandler]
    nextHid := 1
    warnings := []
    executed := []
    crashed := false }

theorem whole_queue_drains_in_one_notification_witness :
    (notifyUpdateEnd allFreeState).executed = [1, 2, 3] ∧
    queueLen (notifyUpdateEnd allFreeState) = 0 := by
  have h := whole_queue_drains_in_one_notification allFreeState allFreeHandler
    [allFreeOp 1, allFreeOp 2, allFreeOp 3] rfl rfl rfl (by simp)
    (by
      intro x hx
      simp only [List.mem_cons, List.not_mem_nil, or_false] at hx
      rcases hx with hx | hx | hx <;> rw [hx] <;> rfl)
  simpa [allFreeState, allFreeOp] using h

/-! ## Admission controller -/

/-- Claim C3: when the resource is free and the queue is empty or absent,
`execWhenSourceBufferReady` runs the callback synchronously before returning
and changes nothing but the `updating` flag (through the callback itself) and
the execution log — in particular the registry entry is exactly what it was
(none is created). -/
theorem free_resource_executes_immediately (cb : Op) (arg : SinkArg) (s : SBState)
    (hq : queueLen s = 0) (hb : s.updating = false) :
    execWhenSourceBufferReady cb arg s =
      { s with
        updating := cb.effect s.updating
        executed := s.executed ++ [cb.id] } := by
  unfold execWhenSourceBufferReady
  have h1 : ¬ 0 < (s.queue.getD []).length := by
    rw [queueLen] at hq
    omega
  simp [h1, hb]

def freeState : SBState :=
  { updating := false
    queue := none
    listeners := []
    nextHid := 0
    warnings := []
    executed := []
    crashed := false }

theorem free_resource_executes_immediately_witness :
    execWhenSourceBufferReady ⟨7, fun _ => true⟩ SinkArg.omitted freeState =
      { freeState with updating := true, executed := [7] } := by
  have h := free_resource_executes_immediately ⟨7, fun _ => true⟩ SinkArg.omitted
    freeState rfl rfl
  simpa [freeState] using h

/-- Claim C6: when a non-empty queue already exists for the resource,
`execWhenSourceBufferReady` only appends the callback to its end — nothing
is executed, no listener is added, and this happens whatever the current
value of the `updating` flag is (the non-empty-queue check precedes the
free-resource immediate-execution check). -/
theorem nonempty_queue_appends_only (cb : Op) (arg : SinkArg) (s : SBState)
    (q : List Op) (hq : s.queue = some q) (hne : q ≠ []) :
    execWhenSourceBufferReady cb arg s = { s with queue := some (q ++ [cb]) } := by
  unfold execWhenSourceBufferReady
  simp only [hq, Option.getD_some]
  rw [if_pos (List.length_pos.mpr hne)]

def pendingOp : Op := ⟨1, fun _ => true⟩

def pendingState : SBState :=
  { updating := false
    queue := some [pendingOp]
    listeners := [⟨0, some consoleWarn⟩]
    nextHid := 1
    warnings := []
    executed := []
    crashed := false }

theorem nonempty_queue_appends_only_witness :
    execWhenSourceBufferReady ⟨2, fun _ => true⟩ SinkArg.omitted pendingState =
      { pendingState with queue := some [pendingOp, ⟨2, fun _ => true⟩] } := by
  have h := nonempty_queue_appends_only ⟨2, fun _ => true⟩ SinkArg.omitted
    pendingState [pendingOp] rfl (by simp)
  simpa [pendingState] using h

/-! ## The busy guard -/

/-- Claim C5: when an `updateend` delivery finds `updating` still (or again)
`true`, the subscribed drain handler emits exactly one warning through its
sink and changes nothing else: no operation is dequeued or invoked and the
subscription stays in place, so a later delivery that finds the resource
free resumes from the same front of the queue. -/
theorem busy_guard_warns_and_preserves_state
    (s : SBState) (h : Handler) (w : Nat)
    (hb : s.updating = true) (hl : s.listeners = [h])
    (hw : h.onWarning = some w) :
    notifyUpdateEnd s =
      { s with warnings := s.warnings ++ [WarnKind.externalBusy] } := by
  have hfire : notifyUpdateEnd s = onSourceBufferReadyAndQueueNotEmpty h s := by
    unfold notifyUpdateEnd
    rw [hl]
    simp only [fireUpdateEnd]
    have hm : h ∈ s.listeners := by rw [hl]; exact List.mem_cons_self h []
    simp [hm]
  rw [hfire]
  unfold onSourceBufferReadyAndQueueNotEmpty
  simp [hb, emitWarning, hw]

def guardState : SBState :=
  { updating := true
    queue := some [⟨4, fun _ => true⟩]
    listeners := [⟨0, some consoleWarn⟩]
    nextHid := 1
    warnings := []
    executed := []
    crashed := false }

theorem busy_guard_warns_and_preserves_state_witness :
    notifyUpdateEnd guardState =
      { guardState with warnings := [WarnKind.externalBusy] } := by
  have h := busy_guard_warns_and_preserves_state guardState ⟨0, some consoleWarn⟩
    consoleWarn rfl rfl rfl
  simpa [guardState] using h

/-! ## The registry entry after draining -/

theorem drainLoop_queue_some (h : Handler) :
    ∀ (l : List Op) (cb : Op) (s : SBState),
      ∃ l', (drainLoop h (cb :: l) s).queue = some l' ∧
        (l' = [] → (drainLoop h (cb :: l) s).listeners = s.listeners.erase h) := by
  intro l
  induction l with
  | nil =>
    intro cb s
    rw [drainLoop_cons_eq]
    exact ⟨[], rfl, fun _ => rfl⟩
  | cons c2 t ih =>
    intro cb s
    rw [drainLoop_cons_eq]
    simp only [List.isEmpty_cons, Bool.false_eq_true, if_false]
    cases hupd : cb.effect s.updating with
    | false =>
      simp only [eq_self_iff_true, if_true]
      exact ih c2 _
    | true =>
      simp only [Bool.true_eq_false, if_false]
      exact ⟨c2 :: t, rfl, by simp⟩

/-- C7 counterexample: a run in which the resource starts free, one
operation makes it busy, a second is therefore queued, and the queue is then
drained to empty by an `updateend` delivery.  Afterwards the handler has
unsubscribed and the queue is empty — yet the registry still holds an entry
for the resource (`some []`, not `none`): the drain routine never removes
the entry, contradicting the claim that a lookup afterwards reports the
queue absent. -/
def drainedEvents : List Event :=
  [Event.submit ⟨1, fun _ => true⟩ SinkArg.omitted,
   Event.submit ⟨2, fun _ => false⟩ SinkArg.omitted,
   Event.extSetUpdating false,
   Event.updateEnd]

theorem drained_registry_entry_still_present :
    queueLen (run drainedEvents) = 0 ∧
    (run drainedEvents).listeners = [] ∧
    (run drainedEvents).queue ≠ none := by
  refine ⟨rfl, rfl, ?_⟩
  have h : (run drainedEvents).queue = some [] := rfl
  rw [h]
  simp

/-- Claim C7 as amended: when the drain routine removes the last operation
from the queue, it unsubscribes the handler, but it does not remove the
queue's entry from the registry — after draining to empty, a lookup finds a
present, empty queue (the `WeakMap` entry persists; it is reused by later
deferred submissions and reclaimed only by garbage collection of the
resource). -/
theorem drain_to_empty_keeps_registry_entry
    (h : Handler) (cb : Op) (l : List Op) (s : SBState)
    (hb : s.updating = false) (hq : s.queue = some (cb :: l)) :
    (onSourceBufferReadyAndQueueNotEmpty h s).queue ≠ none ∧
    (queueLen (onSourceBufferReadyAndQueueNotEmpty h s) = 0 →
      (onSourceBufferReadyAndQueueNotEmpty h s).queue = some [] ∧
      (onSourceBufferReadyAndQueueNotEmpty h s).listeners =
        s.listeners.erase h) := by
  unfold onSourceBufferReadyAndQueueNotEmpty
  simp only [hb, Bool.false_eq_true, if_false]
  have hgd : s.queue.getD [] = cb :: l := by rw [hq]; rfl
  rw [hgd]
  obtain ⟨l', hl', himp⟩ := drainLoop_queue_some h l cb s
  constructor
  · rw [hl']
    simp
  · intro hlen
    have hnil : l' = [] := by
      rw [queueLen, hl'] at hlen
      exact List.length_eq_zero.mp hlen
    rw [hl', hnil]
    exact ⟨rfl, himp hnil⟩

def singletonQueueState : SBState :=
  { updating := false
    queue := some [⟨5, fun _ => false⟩]
    listeners := [⟨0, some consoleWarn⟩]
    nextHid := 1
    warnings := []
    executed := []
    crashed := false }

theorem drain_to_empty_keeps_registry_entry_witness :
    (onSourceBufferReadyAndQueueNotEmpty ⟨0, some consoleWarn⟩
        singletonQueueState).queue = some [] ∧
    (onSourceBufferReadyAndQueueNotEmpty ⟨0, some consoleWarn⟩
        singletonQueueState).listeners = [] := by
  have h := drain_to_empty_keeps_registry_entry ⟨0, some consoleWarn⟩
    ⟨5, fun _ => false⟩ [] singletonQueueState rfl rfl
  have h2 := h.2 rfl
  refine ⟨h2.1, ?_⟩
  rw [h2.2]
  rfl

/-! ## The did-not-re-busy warning -/

/-- Claim C8: in every drain iteration, if the dequeued operation leaves
`updating` false when invoked, exactly one warning is emitted through the
handler's (non-null) sink right after the invocation, and the warning is not
fatal: the loop proceeds to the empty-queue check — unsubscribing if the
queue emptied, and otherwise going straight on to the next queued operation
in the same pass. -/
theorem no_rebusy_warns_once_and_continues
    (h : Handler) (cb : Op) (rest : List Op) (s : SBState) (w : Nat)
    (heff : cb.effect s.updating = false) (hw : h.onWarning = some w) :
    drainLoop h (cb :: rest) s =
      (let s1 : SBState :=
        { s with
          updating := false
          queue := some rest
          executed := s.executed ++ [cb.id]
          warnings := s.warnings ++ [WarnKind.didNotReBusy] }
       if rest.isEmpty then
         { s1 with listeners := s1.listeners.erase h }
       else
         drainLoop h rest s1) := by
  rw [drainLoop_cons_eq]
  simp only [heff, eq_self_iff_true, if_true, emitWarning, hw]

def twoOpState : SBState :=
  { updating := false
    queue := some [⟨1, fun _ => false⟩, ⟨2, fun _ => true⟩]
    listeners := [⟨0, some consoleWarn⟩]
    nextHid := 1
    warnings := []
    executed := []
    crashed := false }

theorem no_rebusy_warns_once_and_continues_witness :
    (drainLoop ⟨0, some consoleWarn⟩ [⟨1, fun _ => false⟩, ⟨2, fun _ => true⟩]
        twoOpState).warnings = [WarnKind.didNotReBusy] ∧
    (drainLoop ⟨0, some consoleWarn⟩ [⟨1, fun _ => false⟩, ⟨2, fun _ => true⟩]
        twoOpState).executed = [1, 2] := by
  rw [no_rebusy_warns_once_and_continues ⟨0, some consoleWarn⟩ ⟨1, fun _ => false⟩
    [⟨2, fun _ => true⟩] twoOpState consoleWarn rfl rfl]
  exact ⟨rfl, rfl⟩

/-! ## The warning sink argument -/

def undefSinkEvents : List Event :=
  [Event.submit ⟨1, fun _ => true⟩ SinkArg.jsNull,
   Event.submit ⟨2, fun _ => false⟩ SinkArg.undef,
   Event.extSetUpdating false,
   Event.updateEnd]

def nullSinkEvents : List Event :=
  [Event.submit ⟨1, fun _ => true⟩ SinkArg.jsNull,
   Event.submit ⟨2, fun _ => false⟩ SinkArg.jsNull,
   Event.extSetUpdating false,
   Event.updateEnd]

/-- Claim C10: passing explicit `undefined` as the warning sink does not
suppress warnings: the default parameter substitutes `console.warn` (exactly
as when the argument is omitted), so a run whose drain triggers a warning
condition still emits the warning; only a `null` sink makes the optional
call `onWarning?.(...)` a no-op, suppressing all warning output. -/
theorem undefined_sink_gets_default_and_warns :
    resolveOnWarning SinkArg.undef = some consoleWarn ∧
    resolveOnWarning SinkArg.omitted = some consoleWarn ∧
    resolveOnWarning SinkArg.jsNull = none ∧
    emitWarning (resolveOnWarning SinkArg.undef) WarnKind.externalBusy =
      [WarnKind.externalBusy] ∧
    emitWarning (resolveOnWarning SinkArg.jsNull) WarnKind.externalBusy = [] ∧
    (run undefSinkEvents).warnings = [WarnKind.didNotReBusy] ∧
    (run nullSinkEvents).warnings = [] :=
  ⟨rfl, rfl, rfl, rfl, rfl, rfl, rfl⟩
